import Mathlib

/-!
Shallow embedding of the repoforge repository: `src/generator.py` (fixed
configuration, extension filtering also in the tree view) and
`src/repoforge/repoforge.py` (configurable variant, no extension filtering
in the tree view).  The filesystem is modelled as a tree of directory
nodes; a directory carries whether listing it succeeds, and a file carries
exactly the observations the program can make of it: its name, whether
`os.path.getsize` succeeds and the size it reports, whether
opening/decoding the file as UTF-8 text succeeds, the raw lines Python's
text iteration yields (each possibly ending in a newline character), and
the message of the exception raised when reading fails.
-/

/-- Observation model of one file on disk.  `statOk` is whether
`os.path.getsize` succeeds (it fails e.g. on a broken symbolic link);
`readable` is whether `open` plus UTF-8 decoding succeeds; `lines` are the
raw lines Python's file iteration yields. -/
structure FileNode where
  name : String
  statOk : Bool
  size : Nat
  readable : Bool
  lines : List String
  errMsg : String
deriving DecidableEq, Repr

/-- A directory on disk: its base name, whether listing it succeeds
(`os.listdir` / `os.scandir` can raise, e.g. for a directory without read
permission), and its children in filesystem iteration order.  The children
are what is actually there; the program only sees them when the directory
is listable. -/
inductive DirNode where
  | mk (name : String) (listable : Bool) (files : List FileNode) (subdirs : List DirNode)
deriving Repr

def DirNode.name : DirNode → String
  | .mk n _ _ _ => n

def DirNode.listable : DirNode → Bool
  | .mk _ lb _ _ => lb

def DirNode.files : DirNode → List FileNode
  | .mk _ _ fs _ => fs

def DirNode.subdirs : DirNode → List DirNode
  | .mk _ _ _ ss => ss

/-- Configuration surface of `repoforge.py`; `generator.py` uses the fixed
module constants `generatorConfig` below. -/
structure Config where
  ignoredDirs : List String
  ignoredExtensions : List String
  maxFileSizeBytes : Nat
  maxSummaryLines : Nat
deriving DecidableEq, Repr

/-- The record `{'name': ..., 'summary': ...}` built by `create_repo_summary`. -/
structure FileSummary where
  name : String
  summary : String
deriving DecidableEq, Repr

/-- The record `{'directory': ..., 'files': ...}` built by `create_repo_summary`. -/
structure DirEntry where
  directory : String
  files : List FileSummary
deriving DecidableEq, Repr

/-- Exceptions that can escape `generate_prompt`: the explicit `ValueError`
for a missing root directory, and an `OSError` raised by `os.path.getsize`
(not guarded by any try/except in `create_repo_summary`) or by `os.listdir`
(not guarded by any try/except in `create_directory_tree`). -/
inductive PyError where
  | valueError (msg : String)
  | osError (msg : String)
deriving DecidableEq, Repr

/-- Python's `line.rstrip('\n')`: remove all trailing newline characters. -/
def rstripNewlines (s : String) : String :=
  String.mk ((s.toList.reverse.dropWhile (fun c => c == '\n')).reverse)

/-- Python's `"\n".join(parts)`. -/
def joinNl : List String → String
  | [] => ""
  | [s] => s
  | s :: rest => s ++ "\n" ++ joinNl rest

/-- Python's `s.lower()` (ASCII case folding, which is all the ignored
extension sets exercise). -/
def toLowerStr (s : String) : String :=
  String.mk (s.toList.map Char.toLower)

/-- Python's `s.split("\n")` on the character list: splitting always yields
one more piece than there are separators, so the empty string yields one
empty piece. -/
def splitNlChars : List Char → List (List Char)
  | [] => [[]]
  | c :: cs =>
    let r := splitNlChars cs
    if c == '\n' then [] :: r
    else
      match r with
      | [] => [[c]]
      | g :: gs => (c :: g) :: gs

/-- Python's `s.split("\n")`. -/
def splitNl (s : String) : List String :=
  (splitNlChars s.toList).map String.mk

/-- Index (from the front) of the last `'.'` in a list of characters. -/
def lastDotPos : List Char → Option Nat
  | [] => none
  | c :: cs =>
    match lastDotPos cs with
    | some k => some (k + 1)
    | none => if c == '.' then some 0 else none

/-- The extension part of `os.path.splitext` for a plain file name (no path
separator): the suffix starting at the last dot, except that a name
consisting of leading dots only (such as `".git"`) has empty extension. -/
def splitextExt (s : String) : String :=
  let cs := s.toList
  match lastDotPos cs with
  | none => ""
  | some d =>
    if (cs.take d).any (fun c => c != '.') then String.mk (cs.drop d) else ""

/-- Loop body of `summarize_text_file`: `for i, line in enumerate(f): if i >=
max_lines: append "... [Truncated]"; break; else append line.rstrip('\n')`. -/
def summarizeAux (maxLines : Nat) : List String → Nat → List String
  | [], _ => []
  | l :: ls, i =>
    if i ≥ maxLines then ["... [Truncated]"]
    else rstripNewlines l :: summarizeAux maxLines ls (i + 1)

/-- Model of `summarize_text_file(filepath, max_lines)`.  A file that cannot
be opened or decoded makes the whole summary the single error line (the
`except` clause replaces `summary_lines` wholesale). -/
def summarizeTextFile (f : FileNode) (maxLines : Nat) : String :=
  if f.readable then joinNl (summarizeAux maxLines f.lines 0)
  else "Error reading file: " ++ f.errMsg

/-- The placeholder summary recorded for an oversized file. -/
def sizeExceededMsg (size : Nat) : String :=
  "File size (" ++ toString size ++ " bytes) exceeds limit; skipping content."

/-- Whether a file survives the extension filter of the walker:
`ext.lower() in ignored_extensions` drops it. -/
def eligibleFile (cfg : Config) (f : FileNode) : Bool :=
  !(cfg.ignoredExtensions.contains (toLowerStr (splitextExt f.name)))

/-- Per-file step of `create_repo_summary`'s inner loop: extension filter,
then `os.path.getsize` (unguarded: a stat failure raises), then the size
cap, then `summarize_text_file`. -/
def processFile (cfg : Config) (f : FileNode) : Except PyError (Option FileSummary) :=
  if cfg.ignoredExtensions.contains (toLowerStr (splitextExt f.name)) then
    .ok none
  else if !f.statOk then
    .error (.osError ("getsize failed: " ++ f.name))
  else if f.size > cfg.maxFileSizeBytes then
    .ok (some ⟨f.name, sizeExceededMsg f.size⟩)
  else
    .ok (some ⟨f.name, summarizeTextFile f cfg.maxSummaryLines⟩)

/-- The `for filename in files` loop of `create_repo_summary`, accumulating
`file_summaries` and propagating a stat failure at the file where it occurs. -/
def summarizeFiles (cfg : Config) : List FileNode → Except PyError (List FileSummary)
  | [] => .ok []
  | f :: fs =>
    match processFile cfg f with
    | .error e => .error e
    | .ok o =>
      match summarizeFiles cfg fs with
      | .error e => .error e
      | .ok rest => .ok (o.toList ++ rest)

/-- Relative paths as produced by `os.path.relpath` during the walk: the root
is `""`, a child of the root is its bare name, deeper entries are joined
with the separator. -/
def joinRel (rel nm : String) : String :=
  if rel = "" then nm else rel ++ "/" ++ nm

mutual

/-- One `os.walk` step of `create_repo_summary` at directory `d` (reached at
relative path `rel`): summarize the files, then descend into the subdirectory
list with ignored names pruned; the directory's own entry is recorded only if
`file_summaries` is nonempty, and it precedes all descendant entries
(top-down traversal).  `os.walk` runs with the default `onerror=None`, so a
directory it cannot scan is skipped silently, yielding nothing. -/
def walkDir (cfg : Config) (rel : String) (d : DirNode) : Except PyError (List DirEntry) :=
  if !d.listable then .ok []
  else
    match summarizeFiles cfg d.files with
    | .error e => .error e
    | .ok fs =>
      match walkList cfg rel d.subdirs with
      | .error e => .error e
      | .ok rest => .ok ((if fs.isEmpty then [] else [⟨rel, fs⟩]) ++ rest)
termination_by sizeOf d
decreasing_by
  cases d with
  | mk nm lb fls sds => simp [DirNode.subdirs]

/-- Descend into the subdirectories surviving
`dirs[:] = [d for d in dirs if d not in ignored_dirs]`, in order. -/
def walkList (cfg : Config) (rel : String) (ss : List DirNode) : Except PyError (List DirEntry) :=
  match ss with
  | [] => .ok []
  | s :: rest =>
    if cfg.ignoredDirs.contains s.name then walkList cfg rel rest
    else
      match walkDir cfg (joinRel rel s.name) s with
      | .error e => .error e
      | .ok here =>
        match walkList cfg rel rest with
        | .error e => .error e
        | .ok more => .ok (here ++ more)
termination_by sizeOf ss
decreasing_by
  all_goals simp
  all_goals omega

end

/-- Model of `create_repo_summary(root_dir, ...)`. -/
def createRepoSummary (cfg : Config) (d : DirNode) : Except PyError (List DirEntry) :=
  walkDir cfg "" d

/-- The sorted-and-filtered entry list of `walk_directory` in
`create_directory_tree`: `entries = sorted(os.listdir(path))` followed by
`entries = [e for e in entries if e not in ignored_dirs]`.  Note the filter
applies to every entry name, files included. -/
def childNames (ign : List String) (d : DirNode) : List String :=
  (List.insertionSort (· ≤ ·) (d.files.map FileNode.name ++ d.subdirs.map DirNode.name)).filter
    (fun e => !ign.contains e)

/-- Body of the `for i, entry in enumerate(entries)` loop of
`walk_directory`: the connector depends on whether the entry is last in the
filtered list; a directory entry is rendered with a trailing `/` and recursed
into — where `walk_directory` first calls `os.listdir` on it, which raises if
the directory is not listable — and a file entry is rendered as is, except
that the `generator.py` variant (`filterExt = true`) first drops files with
ignored extensions.  A raise discards all lines appended so far. -/
def renderChildren (filterExt : Bool) (ign ignExt : List String) (d : DirNode) (pre : String)
    (ns : List String) : Except PyError (List String) :=
  match ns with
  | [] => .ok []
  | n :: rest =>
    let conn := if rest.isEmpty then "└── " else "├── "
    let childPre := if rest.isEmpty then "    " else "│   "
    match hf : d.subdirs.find? (fun s => s.name == n) with
    | some s =>
      if s.listable then
        match renderChildren filterExt ign ignExt s (pre ++ childPre) (childNames ign s) with
        | .error e => .error e
        | .ok sub =>
          match renderChildren filterExt ign ignExt d pre rest with
          | .error e => .error e
          | .ok more => .ok (((pre ++ conn ++ n ++ "/") :: sub) ++ more)
      else .error (.osError ("listdir failed: " ++ s.name))
    | none =>
      match renderChildren filterExt ign ignExt d pre rest with
      | .error e => .error e
      | .ok more =>
        .ok ((if filterExt && ignExt.contains (toLowerStr (splitextExt n)) then []
              else [pre ++ conn ++ n]) ++ more)
termination_by (sizeOf d, ns.length)
decreasing_by
  · have hmem : s ∈ d.subdirs := List.mem_of_find?_eq_some hf
    have h1 : sizeOf s < sizeOf d.subdirs := List.sizeOf_lt_of_mem hmem
    have h2 : sizeOf d.subdirs < sizeOf d := by
      cases d with
      | mk nm lb fls sds => simp [DirNode.subdirs]
    exact Prod.Lex.left _ _ (Nat.lt_trans h1 h2)
  · exact Prod.Lex.right _ (by simp)
  · exact Prod.Lex.right _ (by simp)

/-- Model of `create_directory_tree(root_dir, ignored_dirs)`.  The first line
is `basename(normpath(root_dir)) + "/"`, modelled as the root node's name;
`walk_directory(root_dir)` immediately calls the unguarded `os.listdir`, so
an unlistable root raises. -/
def createDirectoryTree (filterExt : Bool) (ign ignExt : List String) (d : DirNode) :
    Except PyError String :=
  if d.listable then
    match renderChildren filterExt ign ignExt d "" (childNames ign d) with
    | .error e => .error e
    | .ok lines => .ok (joinNl ((d.name ++ "/") :: lines))
  else .error (.osError ("listdir failed: " ++ d.name))

/-- Content lines of one file block in `format_prompt_xml`: the summary is
split on newlines and every piece is prefixed with exactly nine spaces. -/
def contentLines (summary : String) : List String :=
  (splitNl summary).map (fun line => "         " ++ line)

/-- The `<file ...>` block appended per file summary. -/
def fileParts (fi : FileSummary) : List String :=
  ("    <file name=\"" ++ fi.name ++ "\">") :: "      <content>" ::
    (contentLines fi.summary ++ ["      </content>", "    </file>"])

/-- The `<directory ...>` block appended per directory entry; a falsy (empty)
relative path is rendered as `(top-level)`. -/
def dirParts (e : DirEntry) : List String :=
  ("  <directory name=\"" ++ (if e.directory = "" then "(top-level)" else e.directory) ++ "\">") ::
    ((e.files.map fileParts).flatten ++ ["  </directory>"])

/-- The `prompt_parts` list built by `format_prompt_xml`, in order.  Python's
`x.strip() if x else fallback` keeps the trimmed text when the string is
nonempty (truthy) and the literal fallback otherwise. -/
def promptParts (repoSummary : List DirEntry) (tree sysMsg userInstr : String) : List String :=
  ["DIRECTORY TREE:", tree, "",
   "<SYSTEM_MESSAGE>",
   if sysMsg = "" then "No system message provided." else sysMsg.trim,
   "</SYSTEM_MESSAGE>\n",
   "<USER_INSTRUCTIONS>",
   if userInstr = "" then "No user instructions provided." else userInstr.trim,
   "</USER_INSTRUCTIONS>\n",
   "<REPOSITORY_CONTENTS>"] ++
  (repoSummary.map dirParts).flatten ++
  ["</REPOSITORY_CONTENTS>"]

/-- Model of `format_prompt_xml`: join the parts with newlines. -/
def formatPromptXml (repoSummary : List DirEntry) (tree sysMsg userInstr : String) : String :=
  joinNl (promptParts repoSummary tree sysMsg userInstr)

/-- Model of `generate_prompt`.  `root = none` models `os.path.isdir(repo_dir)`
being false (the `ValueError` is raised before any traversal); otherwise the
tree is rendered first, then the repository walked, then the prompt
assembled.  A listing failure in the tree renderer or a stat failure inside
the walk propagates out as an `OSError`, in that order. -/
def generatePrompt (filterExt : Bool) (cfg : Config) (repoDirPath : String)
    (root : Option DirNode) (sysMsg userInstr : String) : Except PyError String :=
  match root with
  | none => .error (.valueError ("Directory " ++ repoDirPath ++ " does not exist."))
  | some d =>
    match createDirectoryTree filterExt cfg.ignoredDirs cfg.ignoredExtensions d with
    | .error e => .error e
    | .ok tree =>
      match createRepoSummary cfg d with
      | .error e => .error e
      | .ok summ => .ok (formatPromptXml summ tree sysMsg userInstr)

/-- The module constants of `generator.py`. -/
def generatorConfig : Config :=
  { ignoredDirs := [".git", "__pycache__", ".idea", ".vscode"]
    ignoredExtensions := [".pyc", ".png", ".jpg", ".jpeg", ".gif", ".pdf", ".zip"]
    maxFileSizeBytes := 100000
    maxSummaryLines := 500 }

/-- The default constants of `repoforge.py` (`DEFAULT_MAX_FILE_SIZE_BYTES =
1e20`, exactly representable, hence the exact integer bound). -/
def repoforgeDefaults : Config :=
  { generatorConfig with maxFileSizeBytes := 100000000000000000000 }

deriving instance DecidableEq for Except

/-- Case-insensitive extension match, as the spec words it: some configured
entry equals the file's extension (leading dot included) up to case. -/
def extMatchesCI (exts : List String) (nm : String) : Bool :=
  exts.any (fun e => toLowerStr e == toLowerStr (splitextExt nm))

mutual

/-- Remove every ignored-named directory (with its whole subtree) from the
tree, at all levels.  Files and listability are untouched. -/
def pruneIgnored (ign : List String) (d : DirNode) : DirNode :=
  .mk d.name d.listable d.files (pruneList ign d.subdirs)
termination_by sizeOf d
decreasing_by
  cases d with
  | mk n lb f s => simp [DirNode.subdirs]

/-- Prune a subdirectory list: drop ignored names, prune the rest. -/
def pruneList (ign : List String) (ss : List DirNode) : List DirNode :=
  match ss with
  | [] => []
  | s :: rest =>
    if ign.contains s.name then pruneList ign rest
    else pruneIgnored ign s :: pruneList ign rest
termination_by sizeOf ss
decreasing_by
  all_goals simp
  all_goals omega

end

mutual

/-- Whether `os.path.getsize` succeeds on every eligible file of the tree,
ignored directories excluded — a sufficient condition for the walk to raise
nothing (open/read/decode failures are caught per file and do not matter
here, and a directory `os.walk` cannot scan is skipped silently). -/
def statsOkDir (cfg : Config) (d : DirNode) : Bool :=
  d.files.all (fun f => !eligibleFile cfg f || f.statOk) && statsOkList cfg d.subdirs
termination_by sizeOf d
decreasing_by
  cases d with
  | mk n lb f s => simp [DirNode.subdirs]

/-- List form of `statsOkDir`; ignored-named subdirectories are exempt
because the walk never enters them. -/
def statsOkList (cfg : Config) (ss : List DirNode) : Bool :=
  match ss with
  | [] => true
  | s :: rest =>
    (cfg.ignoredDirs.contains s.name || statsOkDir cfg s) && statsOkList cfg rest
termination_by sizeOf ss
decreasing_by
  all_goals simp
  all_goals omega

end

mutual

/-- Whether `os.listdir` succeeds on every directory the tree renderer
visits: the root and, recursively, every subdirectory whose name is not
ignored (ignored names are filtered from the entry list before the
renderer descends). -/
def treeListable (ign : List String) (d : DirNode) : Bool :=
  d.listable && treeListableList ign d.subdirs
termination_by sizeOf d
decreasing_by
  cases d with
  | mk n lb f s => simp [DirNode.subdirs]

/-- List form of `treeListable`; ignored-named subdirectories are exempt. -/
def treeListableList (ign : List String) (ss : List DirNode) : Bool :=
  match ss with
  | [] => true
  | s :: rest =>
    (ign.contains s.name || treeListable ign s) && treeListableList ign rest
termination_by sizeOf ss
decreasing_by
  all_goals simp
  all_goals omega

end


/-! Helper lemmas about the file summarizer. -/

/-- Closed form of the `summarize_text_file` loop started at index `i`. -/
theorem summarizeAux_eq (m : Nat) :
    ∀ (ls : List String) (i : Nat),
      summarizeAux m ls i =
        (ls.take (m - i)).map rstripNewlines ++
          (if m - i < ls.length then ["... [Truncated]"] else [])
  | [], i => by simp [summarizeAux]
  | l :: ls, i => by
    by_cases h : i ≥ m
    · have hmi : m - i = 0 := by omega
      simp [summarizeAux, h, hmi]
    · have hmi : m - i = (m - (i + 1)) + 1 := by omega
      rw [summarizeAux, if_neg h, summarizeAux_eq m ls (i + 1), hmi]
      simp only [List.take_succ_cons, List.map_cons, List.cons_append, List.length_cons,
        Nat.add_lt_add_iff_right]

/-- Claim C1: for every file the summarizer can read as text,
`summarize_text_file` returns exactly the first `min(n, max_lines)` lines
(each with its trailing newline stripped), followed by exactly one literal
`"... [Truncated]"` line if and only if the file has more than `max_lines`
lines; and the result depends only on the lines up to the cap (reading
stops there instead of continuing). -/
theorem c1_summarizer_truncation (f : FileNode) (m : Nat) (h : f.readable = true) :
    summarizeTextFile f m =
      joinNl
        ((f.lines.take m).map rstripNewlines ++
          (if m < f.lines.length then ["... [Truncated]"] else [])) ∧
    summarizeTextFile f m = summarizeTextFile { f with lines := f.lines.take (m + 1) } m := by
  obtain ⟨nm, st, sz, rd, ls, em⟩ := f
  subst h
  constructor
  · simp [summarizeTextFile, summarizeAux_eq]
  · simp only [summarizeTextFile, eq_self_iff_true, if_true]
    rw [summarizeAux_eq, summarizeAux_eq]
    simp only [Nat.sub_zero, List.take_take, List.length_take,
      Nat.min_eq_left (Nat.le_succ m)]
    have hiff : (m < min (m + 1) ls.length) = (m < ls.length) := by
      simp only [eq_iff_iff]
      omega
    simp only [hiff]

/-- Witness for C1 on a concrete three-line file truncated at two lines. -/
theorem c1_summarizer_truncation_witness :
    (⟨"f.txt", true, 9, true, ["a\n", "b\n", "c\n"], ""⟩ : FileNode).readable = true ∧
    summarizeTextFile ⟨"f.txt", true, 9, true, ["a\n", "b\n", "c\n"], ""⟩ 2 =
      joinNl
        (((["a\n", "b\n", "c\n"] : List String).take 2).map rstripNewlines ++
          (if 2 < (["a\n", "b\n", "c\n"] : List String).length then ["... [Truncated]"] else [])) :=
  ⟨rfl, (c1_summarizer_truncation ⟨"f.txt", true, 9, true, ["a\n", "b\n", "c\n"], ""⟩ 2 rfl).1⟩

/-- Claim C2: a non-extension-ignored file whose statted byte size strictly
exceeds the configured maximum produces exactly the literal placeholder
summary with the real size substituted; the branch is taken before the file
is ever opened, so the result does not depend on `readable` or `lines`,
which are universally quantified here. -/
theorem c2_oversize_placeholder (cfg : Config) (f : FileNode)
    (he : eligibleFile cfg f = true) (hs : f.statOk = true)
    (hbig : f.size > cfg.maxFileSizeBytes) :
    processFile cfg f =
      .ok (some ⟨f.name,
        "File size (" ++ toString f.size ++ " bytes) exceeds limit; skipping content."⟩) := by
  have hc : cfg.ignoredExtensions.contains (toLowerStr (splitextExt f.name)) = false := by
    simpa [eligibleFile] using he
  have hn : toLowerStr (splitextExt f.name) ∉ cfg.ignoredExtensions := by
    simpa using hc
  simp [processFile, hn, hs, hbig, sizeExceededMsg]

/-- Witness for C2 on a 100001-byte unreadable file under the fixed
`generator.py` configuration. -/
theorem c2_oversize_placeholder_witness :
    eligibleFile generatorConfig ⟨"big.txt", true, 100001, false, [], "boom"⟩ = true ∧
    processFile generatorConfig ⟨"big.txt", true, 100001, false, [], "boom"⟩ =
      .ok (some ⟨"big.txt",
        "File size (" ++ toString (100001 : Nat) ++ " bytes) exceeds limit; skipping content."⟩) :=
  ⟨by decide,
   c2_oversize_placeholder generatorConfig ⟨"big.txt", true, 100001, false, [], "boom"⟩
     (by decide) rfl (by decide)⟩

/-- Claim C7: in `format_prompt_xml` the SYSTEM_MESSAGE section line is the
literal fallback exactly when the system message is empty, otherwise the
trimmed message; likewise for USER_INSTRUCTIONS. -/
theorem c7_fallback_literals (summ : List DirEntry) (tree sm ui : String) :
    (promptParts summ tree sm ui)[4]? =
      some (if sm = "" then "No system message provided." else sm.trim) ∧
    (promptParts summ tree sm ui)[7]? =
      some (if ui = "" then "No user instructions provided." else ui.trim) :=
  ⟨rfl, rfl⟩

/-- Claim C8: `generate_prompt` is a pure function of the filesystem state
and its arguments: two runs on equal filesystem trees (hence identical
iteration order) with equal configuration and messages produce byte-identical
output strings. -/
theorem c8_deterministic (fe₁ fe₂ : Bool) (cfg₁ cfg₂ : Config) (p₁ p₂ : String)
    (root₁ root₂ : Option DirNode) (sm₁ sm₂ ui₁ ui₂ : String)
    (hfe : fe₁ = fe₂) (hcfg : cfg₁ = cfg₂) (hp : p₁ = p₂) (hroot : root₁ = root₂)
    (hsm : sm₁ = sm₂) (hui : ui₁ = ui₂) :
    generatePrompt fe₁ cfg₁ p₁ root₁ sm₁ ui₁ = generatePrompt fe₂ cfg₂ p₂ root₂ sm₂ ui₂ := by
  subst hfe hcfg hp hroot hsm hui
  rfl

/-- Witness for C8 on a concrete one-file repository. -/
theorem c8_deterministic_witness :
    generatePrompt true generatorConfig "repo"
        (some (.mk "repo" true [⟨"a.txt", true, 6, true, ["hello\n"], ""⟩] [])) "sys" "usr" =
      generatePrompt true generatorConfig "repo"
        (some (.mk "repo" true [⟨"a.txt", true, 6, true, ["hello\n"], ""⟩] [])) "sys" "usr" :=
  c8_deterministic true true generatorConfig generatorConfig "repo" "repo" _ _ "sys" "sys"
    "usr" "usr" rfl rfl rfl rfl rfl rfl

/-- Claim C10: a readable empty file summarizes to the empty string, and the
formatter's content block for it is exactly one line of exactly nine spaces
(splitting the empty summary yields one empty piece, which is then
prefixed). -/
theorem c10_empty_file_nine_spaces (f : FileNode) (m : Nat)
    (hr : f.readable = true) (hl : f.lines = []) :
    summarizeTextFile f m = "" ∧
    contentLines (summarizeTextFile f m) = ["         "] := by
  have h1 : summarizeTextFile f m = "" := by
    simp [summarizeTextFile, hr, hl, summarizeAux, joinNl]
  exact ⟨h1, by rw [h1]; rfl⟩

/-- Witness for C10 on a concrete empty file. -/
theorem c10_empty_file_nine_spaces_witness :
    summarizeTextFile ⟨"e.txt", true, 0, true, [], ""⟩ 500 = "" ∧
    contentLines (summarizeTextFile ⟨"e.txt", true, 0, true, [], ""⟩ 500) = ["         "] :=
  c10_empty_file_nine_spaces ⟨"e.txt", true, 0, true, [], ""⟩ 500 rfl rfl

/-! Case handling of the walker's extension filter (claim C6). -/

/-- Counterexample to claim C6 as stated: with a configured set containing
the uppercase entry ".PNG", the file "img.png" matches the set
case-insensitively, yet the walker does not drop it — the code lowercases
only the file's extension and tests verbatim membership, so a FileSummary
is still produced. -/
theorem c6_counterexample :
    extMatchesCI [".PNG"] "img.png" = true ∧
    processFile ⟨[".git"], [".PNG"], 1000, 10⟩ ⟨"img.png", true, 5, true, ["data"], ""⟩ =
      .ok (some ⟨"img.png", "data"⟩) := by
  constructor
  · decide
  · decide

/-- Claim C6 (amended): when every configured ignored-extension entry is
lowercase — as all the default entries are — a file whose extension matches
the set case-insensitively is dropped entirely by the walker: no
FileSummary, not even a placeholder, is created, and the size is never
checked (`statOk` and `size` are universally quantified here, so the
result cannot depend on them). -/
theorem c6_ci_extension_drop (cfg : Config) (f : FileNode)
    (hlow : ∀ e ∈ cfg.ignoredExtensions, toLowerStr e = e)
    (hm : extMatchesCI cfg.ignoredExtensions f.name = true) :
    processFile cfg f = .ok none := by
  rw [extMatchesCI, List.any_eq_true] at hm
  obtain ⟨e, hmem, hbeq⟩ := hm
  have he : toLowerStr e = toLowerStr (splitextExt f.name) := by simpa using hbeq
  have hmem' : toLowerStr (splitextExt f.name) ∈ cfg.ignoredExtensions := by
    rw [← he, hlow e hmem]
    exact hmem
  simp [processFile, hmem']

/-- Witness for C6 (amended) on the default configuration and a file named
"photo.JPG" whose stat would fail, showing the drop happens before any size
check. -/
theorem c6_ci_extension_drop_witness :
    (∀ e ∈ generatorConfig.ignoredExtensions, toLowerStr e = e) ∧
    extMatchesCI generatorConfig.ignoredExtensions "photo.JPG" = true ∧
    processFile generatorConfig ⟨"photo.JPG", false, 5, true, [], ""⟩ = .ok none :=
  ⟨by decide, by decide,
   c6_ci_extension_drop generatorConfig ⟨"photo.JPG", false, 5, true, [], ""⟩
     (by decide) (by decide)⟩

/-! Walker lemmas. -/

/-- A file dropped by the extension filter produces no summary at all. -/
theorem processFile_ineligible (cfg : Config) (f : FileNode)
    (h : eligibleFile cfg f = false) : processFile cfg f = .ok none := by
  have hc : cfg.ignoredExtensions.contains (toLowerStr (splitextExt f.name)) = true := by
    simpa [eligibleFile] using h
  have hm : toLowerStr (splitextExt f.name) ∈ cfg.ignoredExtensions := by
    simpa using hc
  simp [processFile, hm]

/-- An eligible file whose stat succeeds always produces some summary
record carrying the file's name (placeholder or content). -/
theorem processFile_eligible_some (cfg : Config) (f : FileNode)
    (he : eligibleFile cfg f = true) (hs : f.statOk = true) :
    ∃ s, processFile cfg f = .ok (some ⟨f.name, s⟩) := by
  have hn : toLowerStr (splitextExt f.name) ∉ cfg.ignoredExtensions := by
    simpa [eligibleFile] using he
  by_cases hbig : f.size > cfg.maxFileSizeBytes
  · exact ⟨sizeExceededMsg f.size, by simp [processFile, hn, hs, hbig]⟩
  · exact ⟨summarizeTextFile f cfg.maxSummaryLines, by simp [processFile, hn, hs, hbig]⟩

/-- An eligible file whose stat fails raises out of the walker. -/
theorem processFile_eligible_error (cfg : Config) (f : FileNode)
    (he : eligibleFile cfg f = true) (hs : f.statOk = false) :
    processFile cfg f = .error (.osError ("getsize failed: " ++ f.name)) := by
  have hn : toLowerStr (splitextExt f.name) ∉ cfg.ignoredExtensions := by
    simpa [eligibleFile] using he
  simp [processFile, hn, hs]

/-- When the file loop returns normally, its result is empty exactly when
the directory has no eligible file. -/
theorem summarizeFiles_ok_isEmpty (cfg : Config) (files : List FileNode) :
    ∀ fs, summarizeFiles cfg files = .ok fs →
      fs.isEmpty = !(files.any (eligibleFile cfg)) := by
  induction files with
  | nil =>
    intro fs h
    simp only [summarizeFiles] at h
    cases h
    simp
  | cons f rest ih =>
    intro fs h
    simp only [summarizeFiles] at h
    cases hp : processFile cfg f with
    | error e => rw [hp] at h; cases h
    | ok o =>
      rw [hp] at h
      cases hr : summarizeFiles cfg rest with
      | error e => rw [hr] at h; cases h
      | ok r =>
        rw [hr] at h
        cases h
        cases he : eligibleFile cfg f with
        | false =>
          have := processFile_ineligible cfg f he
          rw [this] at hp
          cases hp
          simpa [he] using ih r hr
        | true =>
          cases hs : f.statOk with
          | false =>
            have := processFile_eligible_error cfg f he hs
            rw [this] at hp
            cases hp
          | true =>
            obtain ⟨s, hps⟩ := processFile_eligible_some cfg f he hs
            rw [hps] at hp
            cases hp
            simp [he]

/-- Claim C5: when the walk of a directory returns normally, the
directory's own entry is present exactly when it has at least one eligible
(non-extension-ignored) file — eligibility does not look at the size, so
oversized files with placeholder summaries count — and the subdirectory
results follow either way (a directory with zero eligible files is omitted
while its subdirectories are still traversed). -/
theorem c5_dir_entry_iff_eligible_file (cfg : Config) (rel nm : String)
    (files : List FileNode) (subs : List DirNode) (l : List DirEntry)
    (h : walkDir cfg rel (.mk nm true files subs) = .ok l) :
    ∃ fs rest, summarizeFiles cfg files = .ok fs ∧ walkList cfg rel subs = .ok rest ∧
      l = (if files.any (eligibleFile cfg) then [⟨rel, fs⟩] else []) ++ rest := by
  simp only [walkDir, DirNode.files, DirNode.subdirs, DirNode.listable, Bool.not_true,
    Bool.false_eq_true, if_false] at h
  cases hsf : summarizeFiles cfg files with
  | error e => rw [hsf] at h; cases h
  | ok fs =>
    rw [hsf] at h
    cases hwl : walkList cfg rel subs with
    | error e => rw [hwl] at h; cases h
    | ok rest =>
      rw [hwl] at h
      cases h
      refine ⟨fs, rest, rfl, rfl, ?_⟩
      have hemp := summarizeFiles_ok_isEmpty cfg files fs hsf
      cases hany : files.any (eligibleFile cfg) with
      | true =>
        rw [hany] at hemp
        simp only [Bool.not_true] at hemp
        simp [hemp]
      | false =>
        rw [hany] at hemp
        simp only [Bool.not_false] at hemp
        simp [hemp]

/-- Witness for C5: a root with one eligible file and one subdirectory
that itself has no eligible file (only a `.png`): the subdirectory entry
is omitted, the root entry present. -/
theorem c5_dir_entry_iff_eligible_file_witness :
    walkDir generatorConfig "" (.mk "root" true
        [⟨"a.txt", true, 6, true, ["hello\n"], ""⟩]
        [.mk "sub" true [⟨"b.png", true, 1, true, ["y"], ""⟩] []]) =
      .ok [⟨"", [⟨"a.txt", "hello"⟩]⟩] ∧
    ∃ fs rest,
      summarizeFiles generatorConfig [⟨"a.txt", true, 6, true, ["hello\n"], ""⟩] = .ok fs ∧
      walkList generatorConfig ""
        [.mk "sub" true [⟨"b.png", true, 1, true, ["y"], ""⟩] []] = .ok rest ∧
      [(⟨"", [⟨"a.txt", "hello"⟩]⟩ : DirEntry)] =
        (if ([⟨"a.txt", true, 6, true, ["hello\n"], ""⟩] : List FileNode).any
            (eligibleFile generatorConfig) then
          [⟨"", fs⟩] else []) ++ rest := by
  have h : walkDir generatorConfig "" (.mk "root" true
      [⟨"a.txt", true, 6, true, ["hello\n"], ""⟩]
      [.mk "sub" true [⟨"b.png", true, 1, true, ["y"], ""⟩] []]) =
      .ok [⟨"", [⟨"a.txt", "hello"⟩]⟩] := by
    simp [walkDir, walkList, summarizeFiles, processFile, summarizeTextFile, summarizeAux,
      rstripNewlines, joinNl, DirNode.files, DirNode.subdirs, DirNode.name, DirNode.listable,
      toLowerStr, splitextExt, lastDotPos, generatorConfig, joinRel]
  exact ⟨h, c5_dir_entry_iff_eligible_file generatorConfig "" "root" _ _ _ h⟩

/-! Structural induction for the nested directory tree. -/

/-- Mutual induction over a directory node and lists of directory nodes. -/
theorem DirNode.mutual_ind (P : DirNode → Prop) (Q : List DirNode → Prop)
    (hmk : ∀ n lb fs ss, Q ss → P (.mk n lb fs ss))
    (hnil : Q [])
    (hcons : ∀ d ds, P d → Q ds → Q (d :: ds)) :
    ∀ d, P d :=
  fun d => DirNode.rec (motive_1 := P) (motive_2 := Q) hmk hnil hcons d

/-- List form of `DirNode.mutual_ind`. -/
theorem DirNode.mutual_ind_list (P : DirNode → Prop) (Q : List DirNode → Prop)
    (hmk : ∀ n lb fs ss, Q ss → P (.mk n lb fs ss))
    (hnil : Q [])
    (hcons : ∀ d ds, P d → Q ds → Q (d :: ds)) :
    ∀ ds, Q ds :=
  fun ds =>
    List.rec hnil (fun d ds' ih => hcons d ds' (DirNode.mutual_ind P Q hmk hnil hcons d) ih) ds

/-! Pruning of ignored directories (claim C3). -/


/-- Pruning preserves the node's name. -/
theorem pruneIgnored_name (ign : List String) (d : DirNode) :
    (pruneIgnored ign d).name = d.name := by
  rw [pruneIgnored]
  rfl

/-- Pruning preserves the node's files. -/
theorem pruneIgnored_files (ign : List String) (d : DirNode) :
    (pruneIgnored ign d).files = d.files := by
  rw [pruneIgnored]
  rfl

/-- Pruning preserves the node's listability. -/
theorem pruneIgnored_listable (ign : List String) (d : DirNode) :
    (pruneIgnored ign d).listable = d.listable := by
  rw [pruneIgnored]
  rfl

/-- The subdirectories of a pruned node are the pruned subdirectories. -/
theorem pruneIgnored_subdirs (ign : List String) (d : DirNode) :
    (pruneIgnored ign d).subdirs = pruneList ign d.subdirs := by
  rw [pruneIgnored]
  rfl

/-- The repository walk only depends on the tree with every ignored-named
directory removed: ignored subtrees are never visited and contribute no
entry. -/
theorem walk_prune (cfg : Config) :
    (∀ d rel, walkDir cfg rel d = walkDir cfg rel (pruneIgnored cfg.ignoredDirs d)) ∧
    (∀ ss rel, walkList cfg rel ss = walkList cfg rel (pruneList cfg.ignoredDirs ss)) := by
  have hmk : ∀ n lb fs ss,
      (∀ rel, walkList cfg rel ss = walkList cfg rel (pruneList cfg.ignoredDirs ss)) →
      ∀ rel, walkDir cfg rel (.mk n lb fs ss) =
        walkDir cfg rel (pruneIgnored cfg.ignoredDirs (.mk n lb fs ss)) := by
    intro n lb fs ss ih rel
    rw [pruneIgnored]
    simp only [walkDir, DirNode.files, DirNode.subdirs, DirNode.name, DirNode.listable]
    rw [ih rel]
  have hnil : ∀ rel, walkList cfg rel [] = walkList cfg rel (pruneList cfg.ignoredDirs []) := by
    intro rel
    rw [pruneList]
  have hcons : ∀ s ds,
      (∀ rel, walkDir cfg rel s = walkDir cfg rel (pruneIgnored cfg.ignoredDirs s)) →
      (∀ rel, walkList cfg rel ds = walkList cfg rel (pruneList cfg.ignoredDirs ds)) →
      ∀ rel, walkList cfg rel (s :: ds) =
        walkList cfg rel (pruneList cfg.ignoredDirs (s :: ds)) := by
    intro s ds ihP ihQ rel
    by_cases hign : cfg.ignoredDirs.contains s.name = true
    · rw [pruneList]
      simp only [hign, if_true]
      rw [walkList]
      simp only [hign, if_true]
      exact ihQ rel
    · have hign' : cfg.ignoredDirs.contains s.name = false := by simpa using hign
      rw [pruneList]
      simp only [hign', Bool.false_eq_true, if_false]
      rw [walkList, walkList]
      simp only [hign', Bool.false_eq_true, if_false, pruneIgnored_name]
      rw [← ihP (joinRel rel s.name), ← ihQ rel]
  exact ⟨DirNode.mutual_ind _ _ hmk hnil hcons, DirNode.mutual_ind_list _ _ hmk hnil hcons⟩

/-- Filtering commutes with sorting (both sides are sorted permutations of
the same list). -/
theorem filter_insertionSort (p : String → Bool) (l : List String) :
    (List.insertionSort (· ≤ ·) l).filter p = List.insertionSort (· ≤ ·) (l.filter p) := by
  apply List.eq_of_perm_of_sorted (r := (· ≤ ·))
  · exact ((List.perm_insertionSort _ l).filter p).trans
      (List.perm_insertionSort _ (l.filter p)).symm
  · exact (List.sorted_insertionSort _ l).filter p
  · exact List.sorted_insertionSort _ _

/-- The names of a pruned subdirectory list are the non-ignored names. -/
theorem pruneList_names (ign : List String) (ss : List DirNode) :
    (pruneList ign ss).map DirNode.name =
      (ss.map DirNode.name).filter (fun n => !ign.contains n) := by
  induction ss with
  | nil => rw [pruneList]; simp
  | cons s rest ih =>
    by_cases h : s.name ∈ ign
    · rw [pruneList]
      simp [h, ih]
    · rw [pruneList]
      simp [h, ih, pruneIgnored_name]

/-- The sorted-and-filtered entry names of a directory are unchanged by
pruning: the pruned-away names were filtered out anyway. -/
theorem childNames_prune (ign : List String) (d : DirNode) :
    childNames ign (pruneIgnored ign d) = childNames ign d := by
  unfold childNames
  rw [pruneIgnored_files, pruneIgnored_subdirs, pruneList_names,
    filter_insertionSort, filter_insertionSort]
  congr 1
  rw [List.filter_append, List.filter_append]
  congr 1
  rw [List.filter_filter]
  simp only [Bool.and_self]

/-- Looking up a non-ignored name in a pruned subdirectory list finds the
pruned version of what the original lookup finds. -/
theorem find?_pruneList (ign : List String) (nm : String)
    (h : ign.contains nm = false) (ss : List DirNode) :
    (pruneList ign ss).find? (fun s => s.name == nm) =
      (ss.find? (fun s => s.name == nm)).map (pruneIgnored ign) := by
  induction ss with
  | nil => rw [pruneList]; simp
  | cons s rest ih =>
    by_cases hs : ign.contains s.name = true
    · have hne : (s.name == nm) = false := by
        by_cases heq : s.name = nm
        · rw [heq] at hs; rw [hs] at h; cases h
        · simpa using heq
      rw [pruneList]
      simp only [hs, if_true]
      rw [ih, List.find?]
      simp [hne]
    · have hs' : ign.contains s.name = false := by simpa using hs
      rw [pruneList]
      simp only [hs', Bool.false_eq_true, if_false]
      by_cases heq : (s.name == nm) = true
      · rw [List.find?, List.find?]
        simp [pruneIgnored_name, heq]
      · have heq' : (s.name == nm) = false := by simpa using heq
        rw [List.find?, List.find?]
        simp [pruneIgnored_name, heq', ih]

/-- Every name in the tree renderer's filtered entry list is non-ignored. -/
theorem childNames_not_ignored (ign : List String) (d : DirNode) :
    ∀ n ∈ childNames ign d, ign.contains n = false := by
  intro n hn
  unfold childNames at hn
  simpa using List.of_mem_filter hn

/-- The rendered tree below a directory only depends on the pruned tree,
for any entry list of non-ignored names. -/
theorem renderChildren_prune (fe : Bool) (ign ignExt : List String) (d : DirNode) (pre : String)
    (ns : List String) (hns : ∀ n ∈ ns, ign.contains n = false) :
    renderChildren fe ign ignExt (pruneIgnored ign d) pre ns =
      renderChildren fe ign ignExt d pre ns := by
  match ns with
  | [] => rw [renderChildren, renderChildren]
  | n :: rest =>
    have hn : ign.contains n = false := hns n (List.mem_cons_self n rest)
    have hrest : ∀ x ∈ rest, ign.contains x = false :=
      fun x hx => hns x (List.mem_cons_of_mem n hx)
    rw [renderChildren, renderChildren]
    rw [pruneIgnored_subdirs, find?_pruneList ign n hn d.subdirs]
    cases hf : d.subdirs.find? (fun s => s.name == n) with
    | none =>
      simp only [Option.map_none']
      rw [renderChildren_prune fe ign ignExt d pre rest hrest]
    | some s =>
      simp only [Option.map_some']
      simp only [pruneIgnored_listable, pruneIgnored_name, childNames_prune]
      rw [renderChildren_prune fe ign ignExt s _ (childNames ign s) (childNames_not_ignored ign s)]
      rw [renderChildren_prune fe ign ignExt d pre rest hrest]
termination_by (sizeOf d, ns.length)
decreasing_by
  · exact Prod.Lex.right _ (by simp)
  · have hmem : s ∈ d.subdirs := List.mem_of_find?_eq_some hf
    have h1 : sizeOf s < sizeOf d.subdirs := List.sizeOf_lt_of_mem hmem
    have h2 : sizeOf d.subdirs < sizeOf d := by
      cases d with
      | mk nm lb fls sds => simp [DirNode.subdirs]
    exact Prod.Lex.left _ _ (Nat.lt_trans h1 h2)
  · exact Prod.Lex.right _ (by simp)

/-- Claim C3: an ignored-named directory anywhere in the tree, together with
all its descendants, contributes nothing to the repository summary or the
directory tree: both outputs coincide with the outputs on the tree with all
ignored-named directories (and their subtrees) removed, in both variants. -/
theorem c3_ignored_dirs_invisible (fe : Bool) (cfg : Config) (rel : String) (d : DirNode) :
    walkDir cfg rel d = walkDir cfg rel (pruneIgnored cfg.ignoredDirs d) ∧
    createDirectoryTree fe cfg.ignoredDirs cfg.ignoredExtensions d =
      createDirectoryTree fe cfg.ignoredDirs cfg.ignoredExtensions
        (pruneIgnored cfg.ignoredDirs d) := by
  constructor
  · exact (walk_prune cfg).1 d rel
  · unfold createDirectoryTree
    simp only [pruneIgnored_name, pruneIgnored_listable, childNames_prune,
      renderChildren_prune fe cfg.ignoredDirs cfg.ignoredExtensions d ""
        (childNames cfg.ignoredDirs d) (childNames_not_ignored cfg.ignoredDirs d)]

/-! Exception scope of the walk (claim C4). -/


/-- The file loop returns normally when every eligible file can be statted. -/
theorem summarizeFiles_isOk (cfg : Config) (files : List FileNode)
    (h : files.all (fun f => !eligibleFile cfg f || f.statOk) = true) :
    ∃ fs, summarizeFiles cfg files = .ok fs := by
  induction files with
  | nil => exact ⟨[], rfl⟩
  | cons f rest ih =>
    rw [List.all_cons, Bool.and_eq_true] at h
    obtain ⟨h1, h2⟩ := h
    obtain ⟨fs', hfs'⟩ := ih h2
    cases he : eligibleFile cfg f with
    | false =>
      have hp := processFile_ineligible cfg f he
      exact ⟨fs', by simp [summarizeFiles, hp, hfs']⟩
    | true =>
      have hs : f.statOk = true := by
        rw [he] at h1
        simpa using h1
      obtain ⟨s, hp⟩ := processFile_eligible_some cfg f he hs
      exact ⟨⟨f.name, s⟩ :: fs', by simp [summarizeFiles, hp, hfs']⟩

/-- When every eligible file outside ignored directories can be statted,
the walk returns normally. -/
theorem statsOk_walk (cfg : Config) :
    (∀ d, statsOkDir cfg d = true → ∀ rel, ∃ l, walkDir cfg rel d = .ok l) ∧
    (∀ ss, statsOkList cfg ss = true → ∀ rel, ∃ l, walkList cfg rel ss = .ok l) := by
  have hmk : ∀ n lb fs ss,
      (statsOkList cfg ss = true → ∀ rel, ∃ l, walkList cfg rel ss = .ok l) →
      statsOkDir cfg (.mk n lb fs ss) = true →
      ∀ rel, ∃ l, walkDir cfg rel (.mk n lb fs ss) = .ok l := by
    intro n lb fs ss ih h rel
    cases lb with
    | false =>
      refine ⟨[], ?_⟩
      rw [walkDir]
      simp [DirNode.listable]
    | true =>
      rw [statsOkDir, Bool.and_eq_true] at h
      simp only [DirNode.files, DirNode.subdirs] at h
      obtain ⟨h1, h2⟩ := h
      obtain ⟨fsum, hfs⟩ := summarizeFiles_isOk cfg fs h1
      obtain ⟨rest, hrest⟩ := ih h2 rel
      refine ⟨(if fsum.isEmpty then [] else [⟨rel, fsum⟩]) ++ rest, ?_⟩
      rw [walkDir]
      simp only [DirNode.files, DirNode.subdirs, DirNode.listable, Bool.not_true,
        Bool.false_eq_true, if_false]
      rw [hfs, hrest]
  have hnil : statsOkList cfg [] = true → ∀ rel, ∃ l, walkList cfg rel [] = .ok l := by
    intro _ rel
    exact ⟨[], by rw [walkList]⟩
  have hcons : ∀ s ds,
      (statsOkDir cfg s = true → ∀ rel, ∃ l, walkDir cfg rel s = .ok l) →
      (statsOkList cfg ds = true → ∀ rel, ∃ l, walkList cfg rel ds = .ok l) →
      statsOkList cfg (s :: ds) = true → ∀ rel, ∃ l, walkList cfg rel (s :: ds) = .ok l := by
    intro s ds ihP ihQ h rel
    rw [statsOkList, Bool.and_eq_true] at h
    obtain ⟨h1, h2⟩ := h
    obtain ⟨more, hmore⟩ := ihQ h2 rel
    by_cases hign : cfg.ignoredDirs.contains s.name = true
    · have hmem : s.name ∈ cfg.ignoredDirs := by simpa using hign
      exact ⟨more, by rw [walkList]; simp [hmem, hmore]⟩
    · have hc : cfg.ignoredDirs.contains s.name = false := by simpa using hign
      have hmem : s.name ∉ cfg.ignoredDirs := by simpa using hc
      rw [hc] at h1
      have hs : statsOkDir cfg s = true := by simpa using h1
      obtain ⟨here, hhere⟩ := ihP hs (joinRel rel s.name)
      exact ⟨here ++ more, by rw [walkList]; simp [hmem, hhere, hmore]⟩
  exact ⟨DirNode.mutual_ind _ _ hmk hnil hcons, DirNode.mutual_ind_list _ _ hmk hnil hcons⟩

/-- A member of a tree-listable subdirectory list whose name is not ignored
is itself tree-listable. -/
theorem treeListableList_mem (ign : List String) (ss : List DirNode) (s : DirNode)
    (h : treeListableList ign ss = true) (hmem : s ∈ ss)
    (hn : ign.contains s.name = false) : treeListable ign s = true := by
  induction ss with
  | nil => cases hmem
  | cons x rest ih =>
    rw [treeListableList, Bool.and_eq_true] at h
    obtain ⟨h1, h2⟩ := h
    rcases List.mem_cons.mp hmem with heq | hmem'
    · subst heq
      rw [hn] at h1
      simpa using h1
    · exact ih h2 hmem'

/-- The tree renderer returns normally on a directory whose visited
subdirectories are all listable, for any entry list of non-ignored names. -/
theorem renderChildren_ok (fe : Bool) (ign ignExt : List String) (d : DirNode) (pre : String)
    (ns : List String) (hns : ∀ n ∈ ns, ign.contains n = false)
    (hd : treeListableList ign d.subdirs = true) :
    ∃ ls, renderChildren fe ign ignExt d pre ns = .ok ls := by
  match ns with
  | [] => exact ⟨[], by rw [renderChildren]⟩
  | n :: rest =>
    have hn : ign.contains n = false := hns n (List.mem_cons_self n rest)
    have hrest : ∀ x ∈ rest, ign.contains x = false :=
      fun x hx => hns x (List.mem_cons_of_mem n hx)
    obtain ⟨more, hmore⟩ := renderChildren_ok fe ign ignExt d pre rest hrest hd
    rw [renderChildren]
    cases hf : d.subdirs.find? (fun s => s.name == n) with
    | none =>
      refine ⟨(if fe && ignExt.contains (toLowerStr (splitextExt n)) then []
               else [pre ++ (if rest.isEmpty then "└── " else "├── ") ++ n]) ++ more, ?_⟩
      simp [hmore]
    | some s =>
      have hsname : ign.contains s.name = false := by
        have hbeq := List.find?_some hf
        have heq : s.name = n := by simpa using hbeq
        rw [heq]
        exact hn
      have hmem : s ∈ d.subdirs := List.mem_of_find?_eq_some hf
      have hts := treeListableList_mem ign d.subdirs s hd hmem hsname
      rw [treeListable, Bool.and_eq_true] at hts
      obtain ⟨hlb, hsub⟩ := hts
      obtain ⟨sub, hsubok⟩ := renderChildren_ok fe ign ignExt s
        (pre ++ (if rest.isEmpty then "    " else "│   ")) (childNames ign s)
        (childNames_not_ignored ign s) hsub
      refine ⟨((pre ++ (if rest.isEmpty then "└── " else "├── ") ++ n ++ "/") :: sub) ++ more, ?_⟩
      simp only [hlb, eq_self_iff_true, if_true]
      rw [hsubok, hmore]
termination_by (sizeOf d, ns.length)
decreasing_by
  · exact Prod.Lex.right _ (by simp)
  · have hmem : s ∈ d.subdirs := List.mem_of_find?_eq_some hf
    have h1 : sizeOf s < sizeOf d.subdirs := List.sizeOf_lt_of_mem hmem
    have h2 : sizeOf d.subdirs < sizeOf d := by
      cases d with
      | mk nm lb fls sds => simp [DirNode.subdirs]
    exact Prod.Lex.left _ _ (Nat.lt_trans h1 h2)

/-- The tree renderer returns normally on a tree-listable root. -/
theorem createDirectoryTree_ok (fe : Bool) (ign ignExt : List String) (d : DirNode)
    (h : treeListable ign d = true) :
    ∃ t, createDirectoryTree fe ign ignExt d = .ok t := by
  rw [treeListable, Bool.and_eq_true] at h
  obtain ⟨hlb, hsub⟩ := h
  obtain ⟨ls, hls⟩ := renderChildren_ok fe ign ignExt d "" (childNames ign d)
    (childNames_not_ignored ign d) hsub
  refine ⟨joinNl ((d.name ++ "/") :: ls), ?_⟩
  unfold createDirectoryTree
  simp only [hlb, if_true, hls]

/-- Counterexample to claim C4 as stated, showing two distinct uncaught
escapes.  First, a repository whose single file cannot be statted (for
instance a broken symbolic link): `os.path.getsize` is called outside any
try/except, so the OSError escapes `generate_prompt` even though the root
directory exists.  Second, a repository with an unlistable, non-ignored
subdirectory: the unguarded `os.listdir` in `create_directory_tree` raises,
again escaping `generate_prompt`, even though the repository walk itself
would finish normally (`os.walk` skips the directory silently, as the third
conjunct shows) — so the directory-existence ValueError is not the only
exception that can escape, and per-file/per-directory I/O conditions do
abort the run. -/
theorem c4_counterexample :
    generatePrompt true generatorConfig "repo"
        (some (.mk "repo" true [⟨"data.txt", false, 0, true, [], ""⟩] [])) "" "" =
      .error (.osError "getsize failed: data.txt") ∧
    generatePrompt true generatorConfig "repo2"
        (some (.mk "repo2" true [] [.mk "secret" false [] []])) "" "" =
      .error (.osError "listdir failed: secret") ∧
    createRepoSummary generatorConfig (.mk "repo2" true [] [.mk "secret" false [] []]) =
      .ok [] := by
  refine ⟨?_, ?_, ?_⟩
  · have hp : processFile generatorConfig ⟨"data.txt", false, 0, true, [], ""⟩ =
        .error (.osError "getsize failed: data.txt") := by decide
    obtain ⟨t, htree⟩ := createDirectoryTree_ok true generatorConfig.ignoredDirs
      generatorConfig.ignoredExtensions (.mk "repo" true [⟨"data.txt", false, 0, true, [], ""⟩] [])
      (by rw [treeListable]
          simp only [DirNode.listable, DirNode.subdirs]
          rw [treeListableList]
          decide)
    have hsum : createRepoSummary generatorConfig
        (.mk "repo" true [⟨"data.txt", false, 0, true, [], ""⟩] []) =
        .error (.osError "getsize failed: data.txt") := by
      rw [createRepoSummary, walkDir]
      simp [summarizeFiles, hp, DirNode.files, DirNode.subdirs, DirNode.listable]
    simp [generatePrompt, htree, hsum]
  · have htree : createDirectoryTree true generatorConfig.ignoredDirs
        generatorConfig.ignoredExtensions (.mk "repo2" true [] [.mk "secret" false [] []]) =
        .error (.osError "listdir failed: secret") := by
      simp [createDirectoryTree, childNames, renderChildren, List.find?,
        DirNode.files, DirNode.subdirs, DirNode.name, DirNode.listable, generatorConfig]
    simp [generatePrompt, htree]
  · rw [createRepoSummary, walkDir]
    simp only [DirNode.files, DirNode.subdirs, DirNode.listable, Bool.not_true,
      Bool.false_eq_true, if_false]
    rw [walkList]
    simp [walkDir, walkList, summarizeFiles, DirNode.name, DirNode.listable, generatorConfig]

/-- Claim C4 (amended): open/read/decode failures are swallowed at file
granularity and the directory-existence check raises the ValueError at the
top; but the unguarded `os.listdir` of the tree renderer and the unguarded
`os.path.getsize` of the walk are additional uncaught escapes.  When neither
occurs — every directory the tree renderer visits is listable and every
eligible file outside ignored directories can be statted — the run completes
normally, whatever the per-file read failures. -/
theorem c4_exception_scope (fe : Bool) (cfg : Config) (p : String) (d : DirNode)
    (sm ui : String) (htree : treeListable cfg.ignoredDirs d = true)
    (hstat : statsOkDir cfg d = true) :
    generatePrompt fe cfg p none sm ui =
      .error (.valueError ("Directory " ++ p ++ " does not exist.")) ∧
    ∃ s, generatePrompt fe cfg p (some d) sm ui = .ok s := by
  refine ⟨rfl, ?_⟩
  obtain ⟨t, ht⟩ := createDirectoryTree_ok fe cfg.ignoredDirs cfg.ignoredExtensions d htree
  obtain ⟨l, hl⟩ := (statsOk_walk cfg).1 d hstat ""
  exact ⟨formatPromptXml l t sm ui, by simp [generatePrompt, createRepoSummary, ht, hl]⟩

/-- Witness for C4 (amended) on a repository whose one file is statable but
unreadable: the read error is swallowed and the run completes. -/
theorem c4_exception_scope_witness :
    treeListable generatorConfig.ignoredDirs
      (.mk "repo" true [⟨"bad.txt", true, 3, false, [], "boom"⟩] []) = true ∧
    statsOkDir generatorConfig
      (.mk "repo" true [⟨"bad.txt", true, 3, false, [], "boom"⟩] []) = true ∧
    (generatePrompt true generatorConfig "gone" none "" "" =
      .error (.valueError ("Directory " ++ "gone" ++ " does not exist.")) ∧
     ∃ s, generatePrompt true generatorConfig "repo"
        (some (.mk "repo" true [⟨"bad.txt", true, 3, false, [], "boom"⟩] [])) "" "" = .ok s) := by
  have ht : treeListable generatorConfig.ignoredDirs
      (.mk "repo" true [⟨"bad.txt", true, 3, false, [], "boom"⟩] []) = true := by
    rw [treeListable]
    simp only [DirNode.listable, DirNode.subdirs]
    rw [treeListableList]
    decide
  have hs : statsOkDir generatorConfig
      (.mk "repo" true [⟨"bad.txt", true, 3, false, [], "boom"⟩] []) = true := by
    rw [statsOkDir]
    simp only [DirNode.files, DirNode.subdirs]
    rw [statsOkList]
    decide
  exact ⟨ht, hs, c4_exception_scope true generatorConfig "gone"
    (.mk "repo" true [⟨"bad.txt", true, 3, false, [], "boom"⟩] []) "" "" ht hs⟩

/-! The tree renderer's name filter versus the walker (claim C9). -/

/-- Claim C9: the tree renderer filters every entry name through the
ignored-directory set, files included, while the walker's extension filter
does not consult that set.  A regular file whose name is in the set (such as
a file named ".git") is omitted from the tree in both variants (`fe`
arbitrary), yet still receives a FileSummary in the repository contents, so
the two outputs disagree about it. -/
theorem c9_tree_drops_walker_keeps (fe : Bool) (cfg : Config) (nm : String) (f : FileNode)
    (hign : cfg.ignoredDirs.contains f.name = true)
    (hel : eligibleFile cfg f = true) (hst : f.statOk = true) :
    createDirectoryTree fe cfg.ignoredDirs cfg.ignoredExtensions (.mk nm true [f] []) =
      .ok (nm ++ "/") ∧
    ∃ s, createRepoSummary cfg (.mk nm true [f] []) = .ok [⟨"", [⟨f.name, s⟩]⟩] := by
  constructor
  · have hmem : f.name ∈ cfg.ignoredDirs := by simpa using hign
    have hcn : childNames cfg.ignoredDirs (.mk nm true [f] []) = [] := by
      unfold childNames
      simp [DirNode.files, DirNode.subdirs, hmem]
    unfold createDirectoryTree
    rw [hcn, renderChildren]
    simp [DirNode.name, DirNode.listable, joinNl]
  · obtain ⟨s, hp⟩ := processFile_eligible_some cfg f hel hst
    refine ⟨s, ?_⟩
    rw [createRepoSummary, walkDir]
    simp only [DirNode.files, DirNode.subdirs, DirNode.listable, Bool.not_true,
      Bool.false_eq_true, if_false]
    rw [walkList]
    simp [summarizeFiles, hp]

/-- Witness for C9: a file named ".git" under the default configuration. -/
theorem c9_tree_drops_walker_keeps_witness :
    generatorConfig.ignoredDirs.contains ".git" = true ∧
    createDirectoryTree true generatorConfig.ignoredDirs generatorConfig.ignoredExtensions
        (.mk "root" true [⟨".git", true, 3, true, ["x"], ""⟩] []) = .ok ("root" ++ "/") ∧
    ∃ s, createRepoSummary generatorConfig
        (.mk "root" true [⟨".git", true, 3, true, ["x"], ""⟩] []) =
      .ok [⟨"", [⟨".git", s⟩]⟩] := by
  have h := c9_tree_drops_walker_keeps true generatorConfig "root"
    ⟨".git", true, 3, true, ["x"], ""⟩ (by decide) (by decide) rfl
  exact ⟨by decide, h.1, h.2⟩
